import Mathlib

/-!
Verification of the CC-CEDICT line parser and batch driver (`main.py`).

Python strings are modelled as `List Char` (sequences of Unicode code
points).  The pypinyin transliteration engine is an external collaborator;
it is modelled as an abstract oracle returning, for a character string, the
first candidate reading of each group (the `item[0]` values of
`pypinyin.pinyin(...)`), and it may raise, which is modelled with `Except`.
Whitespace is modelled on the ASCII range (`' '`, `'\t'`, `'\n'`, `'\r'`).
-/

namespace CCCedict

/-- The code points of a string literal. -/
def cs (s : String) : List Char := s.toList

/-- The whitespace class used by Python's `str.strip()` and `str.split()`
(modelled on the ASCII range). -/
def isSpaceChar (c : Char) : Bool := c = ' ' || c = '\t' || c = '\n' || c = '\r'

/-- `str.rstrip()`: drop the trailing run of whitespace. -/
def trimTrailing : List Char → List Char
  | [] => []
  | c :: rest =>
    match trimTrailing rest with
    | [] => if isSpaceChar c then [] else [c]
    | r => c :: r

/-- `str.strip()`: drop leading and trailing whitespace. -/
def trimL (l : List Char) : List Char := trimTrailing (l.dropWhile isSpaceChar)

/-- Helper for `line.split(' ', 2)`: split off the part before the first
`' '`; `none` when there is no space. -/
def splitFirstSpace : List Char → Option (List Char × List Char)
  | [] => none
  | c :: rest =>
    if c = ' ' then some ([], rest)
    else
      match splitFirstSpace rest with
      | none => none
      | some (a, b) => some (c :: a, b)

/-- `line.split(' ', 2)`: split on the single space character, at most two
splits, the remainder kept whole. -/
def split2 (l : List Char) : List (List Char) :=
  match splitFirstSpace l with
  | none => [l]
  | some (a, r) =>
    match splitFirstSpace r with
    | none => [a, r]
    | some (b, r2) => [a, b, r2]

/-- Split a character list at every separator position (keeps empty
pieces, like Python's `str.split` with an explicit separator). -/
def splitWhen (p : Char → Bool) : List Char → List (List Char)
  | [] => [[]]
  | c :: rest =>
    if p c then [] :: splitWhen p rest
    else
      match splitWhen p rest with
      | [] => [[c]]
      | x :: xs => (c :: x) :: xs

/-- `text.split(sep)` for a one-character separator. -/
def splitOnChar (sep : Char) : List Char → List (List Char) :=
  splitWhen (fun c => c == sep)

/-- `str.split()` with no arguments: whitespace-delimited tokens, empty
pieces dropped. -/
def wsTokens (l : List Char) : List (List Char) :=
  (splitWhen isSpaceChar l).filter (fun t => decide (t ≠ []))

/-- Scan for the first `']'`, returning the suffix after it.  `'.'` in the
regex `\[.*?\]` does not match a newline, so the scan stops at `'\n'`. -/
def findClose : List Char → Option (List Char)
  | [] => none
  | c :: rest =>
    if c = ']' then some rest
    else if c = '\n' then none
    else findClose rest

/-- `re.sub(r'\[.*?\]', '', rest)` (main.py line 107): left-to-right,
non-greedy removal of bracketed spans.  Fueled recursion: every step
consumes at least one character, so `l.length` fuel always suffices. -/
def removeBracketsAux : Nat → List Char → List Char
  | 0, l => l
  | _ + 1, [] => []
  | fuel + 1, c :: rest =>
    if c = '[' then
      match findClose rest with
      | some afterClose => removeBracketsAux fuel afterClose
      | none => c :: removeBracketsAux fuel rest
    else
      c :: removeBracketsAux fuel rest

def removeBrackets (l : List Char) : List Char := removeBracketsAux l.length l

/-- `" ".join(tokens)`. -/
def joinSpaceTokens (ls : List (List Char)) : List Char := List.intercalate [' '] ls

/-- The pypinyin engine viewed as an abstract oracle: for a character
string it returns the first candidate reading of each recognized group, or
raises an exception. -/
def Oracle : Type := List Char → Except String (List (List Char))

/-- `get_pinyin_from_characters` (main.py lines 49–69), with the call into
pypinyin abstracted as the oracle `oP`. -/
def get_pinyin_from_characters (oP : Oracle) (characters : List Char) :
    Except String (List Char) :=
  if characters = [] then .ok []
  else
    match oP characters with
    | .error e => .error e
    | .ok items => .ok (joinSpaceTokens (items.filter (fun i => decide (i ≠ []))))

/-- `get_zhuyin_from_characters` (main.py lines 26–46), with the call into
pypinyin abstracted as the oracle `oZ`. -/
def get_zhuyin_from_characters (oZ : Oracle) (characters : List Char) :
    Except String (List Char) :=
  if characters = [] then .ok []
  else
    match oZ characters with
    | .error e => .error e
    | .ok items => .ok (joinSpaceTokens (items.filter (fun i => decide (i ≠ []))))

/-- The record assembled for one valid line (main.py lines 123–130). -/
structure Entry where
  traditional : List Char
  simplified : List Char
  pinyin : List Char
  zhuyin : List Char
  meaning : List (List Char)
  is_idiom : Bool
deriving DecidableEq

/-- main.py lines 104–115: strip the bracketed spans from the remainder,
trim, and extract the `/.../` gloss list (empty when the slashes are not
both present). -/
def extractMeanings (rest : List Char) : List (List Char) :=
  let meaningPart := trimL (removeBrackets rest)
  if meaningPart.head? = some '/' ∧ meaningPart.getLast? = some '/' then
    ((splitOnChar '/' ((meaningPart.drop 1).dropLast)).map trimL).filter
      (fun m => decide (m ≠ []))
  else
    []

/-- `parse_cc_cedict_line` (main.py lines 72–130).  `.ok none` models
`return None` (a skipped line), `.ok (some entry)` a parsed entry, and
`.error` an exception escaping the function (only the oracle can raise). -/
def parse_cc_cedict_line (oP oZ : Oracle) (line : List Char) :
    Except String (Option Entry) :=
  if trimL line = [] ∨ line.head? = some '#' then .ok none
  else
    match split2 (trimL line) with
    | [traditional, simplified, rest] =>
      match get_pinyin_from_characters oP traditional with
      | .error e => .error e
      | .ok p =>
        match get_zhuyin_from_characters oZ traditional with
        | .error e => .error e
        | .ok z =>
          .ok (some
            { traditional := traditional
              simplified := simplified
              pinyin := p
              zhuyin := z
              meaning := extractMeanings rest
              is_idiom := decide (4 ≤ traditional.length) ||
                decide (4 ≤ simplified.length) })
    | _ => .ok none

/-- The loop of `parse_cc_cedict_file` (main.py lines 143–162), carrying
the 1-based line number.  The `print` of a warning is modelled by returning
the ordered warning list alongside the entries. -/
def parse_cc_cedict_file_aux (oP oZ : Oracle) :
    Nat → List (List Char) → List Entry × List (Nat × String)
  | _, [] => ([], [])
  | i, l :: ls =>
    let r := parse_cc_cedict_file_aux oP oZ (i + 1) ls
    match parse_cc_cedict_line oP oZ l with
    | .ok (some e) => (e :: r.1, r.2)
    | .ok none => r
    | .error msg => (r.1, (i, msg) :: r.2)

/-- `parse_cc_cedict_file` (main.py lines 133–162) restricted to its core:
the per-line loop over the already-read source lines. -/
def parse_cc_cedict_file (oP oZ : Oracle) (sourceLines : List (List Char)) :
    List Entry × List (Nat × String) :=
  parse_cc_cedict_file_aux oP oZ 1 sourceLines

/-- A total oracle built from a pure transliteration function. -/
def pureOracle (o : List Char → List (List Char)) : Oracle := fun s => .ok (o s)

/-- A simple concrete reading function: every character reads as itself. -/
def echoReadings (s : List Char) : List (List Char) := s.map (fun c => [c])

/-- A total concrete oracle used in concrete instances. -/
def okO : Oracle := pureOracle echoReadings

/-- A concrete oracle that raises on the character string `"X"`. -/
def failO : Oracle := fun s => if s = ['X'] then .error "boom" else .ok (echoReadings s)

/-! ### Helper lemmas -/

/-- The head of `dropWhile p` never satisfies `p`. -/
theorem dropWhile_head_not (p : Char → Bool) :
    ∀ (l : List Char) (c : Char) (restTail : List Char),
      l.dropWhile p = c :: restTail → p c = false := by
  intro l
  induction l with
  | nil => intro c restTail h; simp [List.dropWhile] at h
  | cons x xs ih =>
    intro c restTail h
    cases hx : p x with
    | true =>
      rw [List.dropWhile_cons_of_pos hx] at h
      exact ih c restTail h
    | false =>
      rw [List.dropWhile_cons_of_neg (by simp [hx])] at h
      cases h
      exact hx

/-- `trimTrailing` either empties a cons or keeps its head. -/
theorem trimTrailing_cons (c : Char) (rest : List Char) :
    trimTrailing (c :: rest) = [] ∨
      ∃ r, trimTrailing (c :: rest) = c :: r := by
  unfold trimTrailing
  cases h : trimTrailing rest with
  | nil =>
    cases hc : isSpaceChar c with
    | true => left; simp [hc]
    | false => right; exact ⟨[], by simp [hc]⟩
  | cons x xs => right; exact ⟨x :: xs, rfl⟩

/-- When `trimTrailing` empties a cons, the head was whitespace. -/
theorem trimTrailing_cons_nil (c : Char) (rest : List Char)
    (h : trimTrailing (c :: rest) = []) : isSpaceChar c = true := by
  unfold trimTrailing at h
  cases hr : trimTrailing rest with
  | nil =>
    rw [hr] at h
    cases hc : isSpaceChar c with
    | true => rfl
    | false => rw [hc] at h; simp at h
  | cons x xs =>
    rw [hr] at h
    simp at h

/-- A nonempty trimmed string starts with a non-whitespace character. -/
theorem trimL_head_not_space (l : List Char) (c : Char) (restTail : List Char)
    (h : trimL l = c :: restTail) : isSpaceChar c = false := by
  unfold trimL at h
  cases hd : l.dropWhile isSpaceChar with
  | nil => rw [hd] at h; simp [trimTrailing] at h
  | cons x xs =>
    rw [hd] at h
    rcases trimTrailing_cons x xs with h0 | ⟨r, hr⟩
    · rw [h0] at h; cases h
    · rw [hr] at h
      injection h with h1 _
      rw [← h1]
      exact dropWhile_head_not isSpaceChar l x xs hd

/-- If trimming empties a string, every character of it is whitespace. -/
theorem all_space_of_trimL_nil (l : List Char) (h : trimL l = []) :
    ∀ c ∈ l, isSpaceChar c = true := by
  have hd : l.dropWhile isSpaceChar = [] := by
    cases hdw : l.dropWhile isSpaceChar with
    | nil => rfl
    | cons x xs =>
      unfold trimL at h
      rw [hdw] at h
      have hx := trimTrailing_cons_nil x xs h
      have hx' := dropWhile_head_not isSpaceChar l x xs hdw
      rw [hx] at hx'
      cases hx'
  intro c hc
  by_contra hcs
  have hcs' : isSpaceChar c = false := Bool.of_not_eq_true hcs
  have := List.dropWhile_eq_nil_iff.mp hd c hc
  rw [hcs'] at this
  cases this

/-- On the else-branch of the space test, `splitFirstSpace` keeps the head
as the head of the first piece. -/
theorem splitFirstSpace_cons_head (c : Char) (rest a b : List Char)
    (hc : ¬c = ' ') (h : splitFirstSpace (c :: rest) = some (a, b)) :
    ∃ a', a = c :: a' := by
  unfold splitFirstSpace at h
  rw [if_neg hc] at h
  cases hs : splitFirstSpace rest with
  | none =>
    rw [hs] at h
    exact Option.noConfusion h
  | some pr =>
    obtain ⟨pa, pb⟩ := pr
    rw [hs] at h
    have h' : (some (c :: pa, pb) : Option (List Char × List Char)) = some (a, b) := h
    cases h'
    exact ⟨pa, rfl⟩

/-- Lines whose split yields fewer than three parts are skipped
(main.py lines 93–95; the skip branch at line 85 also returns `None`). -/
theorem parse_skip_short (oP oZ : Oracle) (line : List Char)
    (h : (split2 (trimL line)).length < 3) :
    parse_cc_cedict_line oP oZ line = .ok none := by
  unfold parse_cc_cedict_line
  split
  · rfl
  · split
    · rename_i heq
      rw [heq] at h
      simp at h
    · rfl

/-- Characterization of a successful parse: the entry's fields in terms of
the split of the trimmed line (main.py lines 84–130). -/
theorem parse_ok_some_spec (oP oZ : Oracle) (line : List Char) (e : Entry)
    (h : parse_cc_cedict_line oP oZ line = .ok (some e)) :
    trimL line ≠ [] ∧ line.head? ≠ some '#' ∧
    ∃ rest, split2 (trimL line) = [e.traditional, e.simplified, rest] ∧
      get_pinyin_from_characters oP e.traditional = .ok e.pinyin ∧
      get_zhuyin_from_characters oZ e.traditional = .ok e.zhuyin ∧
      e.meaning = extractMeanings rest ∧
      e.is_idiom = (decide (4 ≤ e.traditional.length) ||
        decide (4 ≤ e.simplified.length)) := by
  unfold parse_cc_cedict_line at h
  split at h
  · simp at h
  · rename_i hguard
    push_neg at hguard
    split at h
    · rename_i t s rest heq
      split at h
      · cases h
      · rename_i p hp
        split at h
        · cases h
        · rename_i z hz
          cases e
          simp only [Except.ok.injEq, Option.some.injEq, Entry.mk.injEq] at h
          obtain ⟨h1, h2, h3, h4, h5, h6⟩ := h
          subst h1; subst h2; subst h3; subst h4; subst h5; subst h6
          exact ⟨hguard.1, hguard.2, rest, heq, hp, hz, rfl, rfl⟩
    · cases h

/-- The per-line loop distributes over appending line blocks, shifting the
line counter by the length of the first block. -/
theorem parse_file_aux_append (oP oZ : Oracle) (as bs : List (List Char)) :
    ∀ i, parse_cc_cedict_file_aux oP oZ i (as ++ bs) =
      ((parse_cc_cedict_file_aux oP oZ i as).1 ++
        (parse_cc_cedict_file_aux oP oZ (i + as.length) bs).1,
       (parse_cc_cedict_file_aux oP oZ i as).2 ++
        (parse_cc_cedict_file_aux oP oZ (i + as.length) bs).2) := by
  induction as with
  | nil => intro i; simp [parse_cc_cedict_file_aux]
  | cons a as ih =>
    intro i
    have hlen : i + (a :: as).length = (i + 1) + as.length := by
      simp [List.length_cons]; omega
    rw [hlen]
    show parse_cc_cedict_file_aux oP oZ i (a :: (as ++ bs)) = _
    simp only [parse_cc_cedict_file_aux, ih (i + 1)]
    cases hp : parse_cc_cedict_line oP oZ a with
    | ok v => cases v <;> simp
    | error msg => simp

/-- A block in which every line parses to an entry contributes one entry
per line and no warning. -/
theorem parse_file_aux_all_ok (oP oZ : Oracle) (ls : List (List Char))
    (h : ∀ l ∈ ls, ∃ e, parse_cc_cedict_line oP oZ l = .ok (some e)) :
    ∀ i, (parse_cc_cedict_file_aux oP oZ i ls).1.length = ls.length ∧
      (parse_cc_cedict_file_aux oP oZ i ls).2 = [] := by
  induction ls with
  | nil => intro i; simp [parse_cc_cedict_file_aux]
  | cons a as ih =>
    intro i
    obtain ⟨e, he⟩ := h a (by simp)
    have ih' := ih (fun l hl => h l (by simp [hl])) (i + 1)
    simp [parse_cc_cedict_file_aux, he, ih'.1, ih'.2]

/-! ### Claims -/

/-- C1: per-line fault isolation.  For any batch of lines in which exactly
one line `K = pre.length + 1` makes the parser raise (e.g. an oracle
failure) and every other line parses to an entry, the driver returns
`N − 1` entries and exactly one warning, keyed by the 1-based line number
`K`; the run completes over all lines instead of aborting. -/
theorem c1_fault_isolation (oP oZ : Oracle) (pre post : List (List Char))
    (bad : List Char) (msg : String)
    (hbad : parse_cc_cedict_line oP oZ bad = .error msg)
    (hok : ∀ l ∈ pre ++ post, ∃ e, parse_cc_cedict_line oP oZ l = .ok (some e)) :
    (parse_cc_cedict_file oP oZ (pre ++ bad :: post)).1.length =
      (pre ++ bad :: post).length - 1 ∧
    (parse_cc_cedict_file oP oZ (pre ++ bad :: post)).2 =
      [(pre.length + 1, msg)] := by
  have hokpre : ∀ l ∈ pre, ∃ e, parse_cc_cedict_line oP oZ l = .ok (some e) :=
    fun l hl => hok l (List.mem_append.mpr (Or.inl hl))
  have hokpost : ∀ l ∈ post, ∃ e, parse_cc_cedict_line oP oZ l = .ok (some e) :=
    fun l hl => hok l (List.mem_append.mpr (Or.inr hl))
  have hsplit : pre ++ bad :: post = pre ++ ([bad] ++ post) := by simp
  have h1 := parse_file_aux_all_ok oP oZ pre hokpre 1
  have h2 : parse_cc_cedict_file_aux oP oZ (1 + pre.length) [bad] =
      ([], [(1 + pre.length, msg)]) := by
    simp [parse_cc_cedict_file_aux, hbad]
  have h3 := parse_file_aux_all_ok oP oZ post hokpost (1 + pre.length + 1)
  unfold parse_cc_cedict_file
  rw [hsplit, parse_file_aux_append, parse_file_aux_append]
  constructor
  · simp only [List.length_append, h1.1, h2, List.length_singleton]
    simp [h3.1]
    omega
  · simp only [h1.2, h2, List.length_singleton]
    rw [h3.2]
    simp [Nat.add_comm]

/-- Witness for C1: three lines, line 2 makes the oracle raise; the driver
yields the other 2 entries and the single warning `(2, "boom")`. -/
theorem c1_fault_isolation_witness :
    parse_cc_cedict_line failO failO (cs "X 一 /x/") = .error "boom" ∧
    (parse_cc_cedict_file failO failO
      [cs "一 一 /one/", cs "X 一 /x/", cs "你 你 /you/"]).1.length = 2 ∧
    (parse_cc_cedict_file failO failO
      [cs "一 一 /one/", cs "X 一 /x/", cs "你 你 /you/"]).2 = [(2, "boom")] := by
  have hok : ∀ l ∈ [cs "一 一 /one/"] ++ [cs "你 你 /you/"],
      ∃ e, parse_cc_cedict_line failO failO l = .ok (some e) := by
    intro l hl
    simp only [List.cons_append, List.nil_append, List.mem_cons,
      List.not_mem_nil, or_false] at hl
    rcases hl with rfl | rfl
    · exact ⟨⟨cs "一", cs "一", cs "一", cs "一", [cs "one"], false⟩, rfl⟩
    · exact ⟨⟨cs "你", cs "你", cs "你", cs "你", [cs "you"], false⟩, rfl⟩
  have h := c1_fault_isolation failO failO [cs "一 一 /one/"] [cs "你 你 /you/"]
    (cs "X 一 /x/") "boom" rfl hok
  exact ⟨rfl, by simpa using h.1, by simpa using h.2⟩

/-- With a total (pure) oracle, `get_pinyin_from_characters` never raises. -/
theorem get_pinyin_pure (o : List Char → List (List Char)) (chars : List Char) :
    get_pinyin_from_characters (pureOracle o) chars =
      .ok (if chars = [] then []
        else joinSpaceTokens ((o chars).filter (fun i => decide (i ≠ [])))) := by
  unfold get_pinyin_from_characters pureOracle
  by_cases h : chars = []
  · rw [if_pos h, if_pos h]
  · rw [if_neg h, if_neg h]

/-- With a total (pure) oracle, `get_zhuyin_from_characters` never raises. -/
theorem get_zhuyin_pure (o : List Char → List (List Char)) (chars : List Char) :
    get_zhuyin_from_characters (pureOracle o) chars =
      .ok (if chars = [] then []
        else joinSpaceTokens ((o chars).filter (fun i => decide (i ≠ [])))) := by
  unfold get_zhuyin_from_characters pureOracle
  by_cases h : chars = []
  · rw [if_pos h, if_pos h]
  · rw [if_neg h, if_neg h]

/-- With total oracles, the line parser always returns (never raises). -/
theorem parse_pure_total (oP oZ : List Char → List (List Char)) (line : List Char) :
    ∃ r : Option Entry,
      parse_cc_cedict_line (pureOracle oP) (pureOracle oZ) line = .ok r := by
  unfold parse_cc_cedict_line
  split
  · exact ⟨none, rfl⟩
  · split
    · simp only [get_pinyin_pure, get_zhuyin_pure]
      exact ⟨_, rfl⟩
    · exact ⟨none, rfl⟩

/-- `removeBracketsAux` leaves a list without `'['` unchanged. -/
theorem removeBracketsAux_no_bracket :
    ∀ (fuel : Nat) (l : List Char), (∀ c ∈ l, c ≠ '[') →
      removeBracketsAux fuel l = l := by
  intro fuel
  induction fuel with
  | zero => intro l _; rfl
  | succ n ih =>
    intro l h
    cases l with
    | nil => rfl
    | cons c rest =>
      have hc : ¬c = '[' := h c (by simp)
      unfold removeBracketsAux
      rw [if_neg hc, ih rest (fun x hx => h x (by simp [hx]))]

/-- A whitespace-only remainder yields no meanings. -/
theorem extractMeanings_of_all_space (rest : List Char)
    (h : trimL rest = []) : extractMeanings rest = [] := by
  have hall := all_space_of_trimL_nil rest h
  have hnb : removeBrackets rest = rest := by
    apply removeBracketsAux_no_bracket
    intro c hc hceq
    have hsp := hall c hc
    rw [hceq] at hsp
    simp [isSpaceChar] at hsp
  simp only [extractMeanings, hnb, h]
  simp

/-- C2: gloss extraction.  For any parsed entry, with `rest` the remainder
after the two headword tokens: remove every non-greedy bracketed span from
`rest` and trim; if the result starts and ends with `'/'`, the meaning is
the slash-split pieces, trimmed, non-empty ones kept in order; otherwise
the meaning is the empty list. -/
theorem c2_gloss_extraction (oP oZ : Oracle) (line : List Char) (e : Entry)
    (t s rest : List Char)
    (hp : parse_cc_cedict_line oP oZ line = .ok (some e))
    (hs : split2 (trimL line) = [t, s, rest]) :
    ((trimL (removeBrackets rest)).head? = some '/' ∧
        (trimL (removeBrackets rest)).getLast? = some '/' →
      e.meaning = ((splitOnChar '/'
          (((trimL (removeBrackets rest)).drop 1).dropLast)).map trimL).filter
        (fun m => decide (m ≠ []))) ∧
    (¬((trimL (removeBrackets rest)).head? = some '/' ∧
        (trimL (removeBrackets rest)).getLast? = some '/') →
      e.meaning = []) := by
  obtain ⟨-, -, rest', hsplit', -, -, hm, -⟩ := parse_ok_some_spec oP oZ line e hp
  rw [hs] at hsplit'
  simp only [List.cons.injEq, and_true] at hsplit'
  obtain ⟨-, -, hrest⟩ := hsplit'
  subst hrest
  constructor
  · intro hc
    rw [hm]
    simp only [extractMeanings]
    rw [if_pos hc]
  · intro hc
    rw [hm]
    simp only [extractMeanings]
    rw [if_neg hc]

/-- Witness for C2 at the spec's example: remainder
`"[yi4] /one/single/a (article)/"` yields
`meaning = ["one", "single", "a (article)"]`. -/
theorem c2_gloss_extraction_witness :
    parse_cc_cedict_line okO okO (cs "一 一 [yi4] /one/single/a (article)/") =
      .ok (some ⟨cs "一", cs "一", cs "一", cs "一",
        [cs "one", cs "single", cs "a (article)"], false⟩) ∧
    split2 (trimL (cs "一 一 [yi4] /one/single/a (article)/")) =
      [cs "一", cs "一", cs "[yi4] /one/single/a (article)/"] ∧
    Entry.meaning ⟨cs "一", cs "一", cs "一", cs "一",
        [cs "one", cs "single", cs "a (article)"], false⟩ =
      ((splitOnChar '/'
          (((trimL (removeBrackets (cs "[yi4] /one/single/a (article)/"))).drop
            1).dropLast)).map trimL).filter (fun m => decide (m ≠ [])) :=
  ⟨rfl, by decide,
    (c2_gloss_extraction okO okO (cs "一 一 [yi4] /one/single/a (article)/")
      ⟨cs "一", cs "一", cs "一", cs "一",
        [cs "one", cs "single", cs "a (article)"], false⟩
      (cs "一") (cs "一") (cs "[yi4] /one/single/a (article)/")
      rfl (by decide)).1 (by decide)⟩

/-- C3 (amended): a line that is whitespace-only, or whose untrimmed form
begins with `'#'`, is skipped.  (The comment test runs on the untrimmed
line — see the counterexample for the claim as stated.) -/
theorem c3_skip_blank_and_comment (oP oZ : Oracle) (line : List Char)
    (h : trimL line = [] ∨ line.head? = some '#') :
    parse_cc_cedict_line oP oZ line = .ok none := by
  unfold parse_cc_cedict_line
  rw [if_pos h]

/-- Witness for C3: `parse("")`, `parse("   ")` and `parse("# comment")`
all yield SKIP. -/
theorem c3_skip_blank_and_comment_witness :
    (trimL (cs "   ") = [] ∨ (cs "   ").head? = some '#') ∧
    parse_cc_cedict_line okO okO (cs "") = .ok none ∧
    parse_cc_cedict_line okO okO (cs "   ") = .ok none ∧
    parse_cc_cedict_line okO okO (cs "# comment") = .ok none :=
  ⟨Or.inl (by decide),
   c3_skip_blank_and_comment okO okO (cs "") (Or.inl (by decide)),
   c3_skip_blank_and_comment okO okO (cs "   ") (Or.inl (by decide)),
   c3_skip_blank_and_comment okO okO (cs "# comment") (Or.inr (by decide))⟩

/-- C3 counterexample: the comment test runs on the *untrimmed* line
(`line.startswith('#')` before `strip()`), so the line `" # a b"` — whose
trimmed form begins with `'#'` — is not skipped: it parses to an entry
with headword `"#"`. -/
theorem c3_counterexample :
    (trimL (cs " # a b")).head? = some '#' ∧
    parse_cc_cedict_line okO okO (cs " # a b") =
      .ok (some ⟨cs "#", cs "a", cs "#", cs "#", [], false⟩) ∧
    parse_cc_cedict_line okO okO (cs " # a b") ≠ .ok none := by
  refine ⟨by decide, rfl, ?_⟩
  intro hcontra
  rw [show parse_cc_cedict_line okO okO (cs " # a b") =
    .ok (some ⟨cs "#", cs "a", cs "#", cs "#", [], false⟩) from rfl] at hcontra
  exact Option.noConfusion (Except.ok.inj hcontra)

/-- C4 (amended): the headwords of a parsed entry are the first two fields
of splitting the trimmed line on the single space character (at most two
splits); `traditional` is non-empty.  (`simplified` can be empty — see the
counterexample for the claim as stated.) -/
theorem c4_headword_tokens (oP oZ : Oracle) (line : List Char) (e : Entry)
    (hp : parse_cc_cedict_line oP oZ line = .ok (some e)) :
    (∃ rest, split2 (trimL line) = [e.traditional, e.simplified, rest]) ∧
    e.traditional ≠ [] := by
  obtain ⟨hne, -, rest, hsplit, -⟩ := parse_ok_some_spec oP oZ line e hp
  refine ⟨⟨rest, hsplit⟩, ?_⟩
  cases htl : trimL line with
  | nil => exact absurd htl hne
  | cons c cs' =>
    have hcsp : isSpaceChar c = false := trimL_head_not_space line c cs' htl
    have hc : ¬c = ' ' := by
      intro hceq
      rw [hceq] at hcsp
      simp [isSpaceChar] at hcsp
    rw [htl] at hsplit
    unfold split2 at hsplit
    cases h1 : splitFirstSpace (c :: cs') with
    | none => rw [h1] at hsplit; simp at hsplit
    | some pr =>
      obtain ⟨a, r⟩ := pr
      rw [h1] at hsplit
      have hsplit2 : (match splitFirstSpace r with
          | none => [a, r]
          | some (b, r2) => [a, b, r2]) = [e.traditional, e.simplified, rest] :=
        hsplit
      cases h2 : splitFirstSpace r with
      | none => rw [h2] at hsplit2; simp at hsplit2
      | some pr2 =>
        obtain ⟨b, r2⟩ := pr2
        rw [h2] at hsplit2
        simp only [List.cons.injEq, and_true] at hsplit2
        obtain ⟨ha, -, -⟩ := hsplit2
        obtain ⟨a', ha'⟩ := splitFirstSpace_cons_head c cs' a r hc h1
        rw [← ha, ha']
        simp

/-- Witness for C4 at a concrete line. -/
theorem c4_headword_tokens_witness :
    parse_cc_cedict_line okO okO (cs "你好 你好 /hi/") =
      .ok (some ⟨cs "你好", cs "你好", cs "你 好", cs "你 好", [cs "hi"], false⟩) ∧
    ((∃ rest, split2 (trimL (cs "你好 你好 /hi/")) =
      [Entry.traditional ⟨cs "你好", cs "你好", cs "你 好", cs "你 好", [cs "hi"], false⟩,
       Entry.simplified ⟨cs "你好", cs "你好", cs "你 好", cs "你 好", [cs "hi"], false⟩,
       rest]) ∧
     Entry.traditional ⟨cs "你好", cs "你好", cs "你 好", cs "你 好", [cs "hi"], false⟩ ≠ []) :=
  ⟨rfl, c4_headword_tokens okO okO (cs "你好 你好 /hi/")
    ⟨cs "你好", cs "你好", cs "你 好", cs "你 好", [cs "hi"], false⟩ rfl⟩

/-- C4 counterexample: on `"a  b c"` (two consecutive spaces) the
whitespace-delimited tokens are `a`, `b`, `c`, but `split(' ', 2)` yields
an *empty* `simplified` field — not the second whitespace token `"b"`, and
not non-empty. -/
theorem c4_counterexample :
    wsTokens (cs "a  b c") = [cs "a", cs "b", cs "c"] ∧
    parse_cc_cedict_line okO okO (cs "a  b c") =
      .ok (some ⟨cs "a", [], cs "a", cs "a", [], false⟩) ∧
    Entry.simplified ⟨cs "a", [], cs "a", cs "a", [], false⟩ = [] ∧
    (cs "b" : List Char) ≠ [] :=
  ⟨by decide, rfl, rfl, by decide⟩

/-- C5 (amended): a line whose trimmed form splits into fewer than three
parts under the code's `split(' ', 2)` — the single space character, at
most two splits — yields no record: parse returns SKIP.  (Counted in
*whitespace*-delimited tokens, as the claim reads, this fails — see the
counterexample.) -/
theorem c5_insufficient_tokens (oP oZ : Oracle) (line : List Char)
    (h : (split2 (trimL line)).length < 3) :
    parse_cc_cedict_line oP oZ line = .ok none :=
  parse_skip_short oP oZ line h

/-- C5 counterexample: `"a  b"` has only two whitespace-delimited tokens
(two headword tokens, no remainder), yet `split(' ', 2)` yields the three
parts `['a', '', 'b']`, so the parser produces an entry (with empty
`simplified`) instead of SKIP. -/
theorem c5_counterexample :
    wsTokens (cs "a  b") = [cs "a", cs "b"] ∧
    (wsTokens (cs "a  b")).length < 3 ∧
    parse_cc_cedict_line okO okO (cs "a  b") =
      .ok (some ⟨cs "a", [], cs "a", cs "a", [], false⟩) ∧
    parse_cc_cedict_line okO okO (cs "a  b") ≠ .ok none := by
  refine ⟨by decide, by decide, rfl, ?_⟩
  intro hcontra
  rw [show parse_cc_cedict_line okO okO (cs "a  b") =
    .ok (some ⟨cs "a", [], cs "a", cs "a", [], false⟩) from rfl] at hcontra
  exact Option.noConfusion (Except.ok.inj hcontra)

/-- Witness for C5 at the spec's example `parse("一 一")`. -/
theorem c5_insufficient_tokens_witness :
    (split2 (trimL (cs "一 一"))).length < 3 ∧
    parse_cc_cedict_line okO okO (cs "一 一") = .ok none :=
  ⟨by decide, c5_insufficient_tokens okO okO (cs "一 一") (by decide)⟩

/-- C6: `is_idiom` holds exactly when `traditional` or `simplified` has
code-point length at least 4. -/
theorem c6_idiom_classification (oP oZ : Oracle) (line : List Char) (e : Entry)
    (hp : parse_cc_cedict_line oP oZ line = .ok (some e)) :
    (e.is_idiom = true ↔
      (4 ≤ e.traditional.length ∨ 4 ≤ e.simplified.length)) := by
  obtain ⟨-, -, -, -, -, -, -, hid⟩ := parse_ok_some_spec oP oZ line e hp
  rw [hid]
  simp

/-- Witness for C6: true for `traditional = "一帆風順"` (4 code points),
false for `traditional = "你好"` (2 code points). -/
theorem c6_idiom_classification_witness :
    parse_cc_cedict_line okO okO (cs "一帆風順 一帆风顺 [x] /y/") =
      .ok (some ⟨cs "一帆風順", cs "一帆风顺", cs "一 帆 風 順", cs "一 帆 風 順",
        [cs "y"], true⟩) ∧
    (Entry.is_idiom ⟨cs "一帆風順", cs "一帆风顺", cs "一 帆 風 順", cs "一 帆 風 順",
        [cs "y"], true⟩ = true ↔
      (4 ≤ (cs "一帆風順").length ∨ 4 ≤ (cs "一帆风顺").length)) ∧
    parse_cc_cedict_line okO okO (cs "你好 你好 [x] /hi/") =
      .ok (some ⟨cs "你好", cs "你好", cs "你 好", cs "你 好", [cs "hi"], false⟩) ∧
    Entry.is_idiom ⟨cs "你好", cs "你好", cs "你 好", cs "你 好", [cs "hi"], false⟩ = false :=
  ⟨rfl,
   c6_idiom_classification okO okO (cs "一帆風順 一帆风顺 [x] /y/")
     ⟨cs "一帆風順", cs "一帆风顺", cs "一 帆 風 順", cs "一 帆 風 順", [cs "y"], true⟩ rfl,
   rfl, rfl⟩

/-- C7 (amended): the pinyin and zhuyin of a produced entry are a function
of the `traditional` field (the first single-space-delimited part of the
trimmed line) alone: two entries produced under the same oracles with equal
`traditional` have identical pinyin and zhuyin; and on an empty character
string both transliteration functions return the empty string.  (The claim
as stated — keyed to the first *whitespace*-delimited token — fails; see
the counterexample.) -/
theorem c7_pronunciation_noninterference :
    (∀ (oP oZ : Oracle) (l1 l2 : List Char) (e1 e2 : Entry),
      parse_cc_cedict_line oP oZ l1 = .ok (some e1) →
      parse_cc_cedict_line oP oZ l2 = .ok (some e2) →
      e1.traditional = e2.traditional →
      e1.pinyin = e2.pinyin ∧ e1.zhuyin = e2.zhuyin) ∧
    (∀ oP oZ : Oracle,
      get_pinyin_from_characters oP [] = .ok [] ∧
      get_zhuyin_from_characters oZ [] = .ok []) := by
  constructor
  · intro oP oZ l1 l2 e1 e2 h1 h2 ht
    obtain ⟨-, -, -, -, hp1, hz1, -, -⟩ := parse_ok_some_spec oP oZ l1 e1 h1
    obtain ⟨-, -, -, -, hp2, hz2, -, -⟩ := parse_ok_some_spec oP oZ l2 e2 h2
    rw [ht] at hp1 hz1
    rw [hp2] at hp1
    rw [hz2] at hz1
    exact ⟨(Except.ok.inj hp1).symm, (Except.ok.inj hz1).symm⟩
  · intro oP oZ
    exact ⟨rfl, rfl⟩

/-- Witness for C7: same `traditional`, different simplified token,
bracketed romanization and glosses — identical pinyin and zhuyin. -/
theorem c7_pronunciation_noninterference_witness :
    parse_cc_cedict_line okO okO (cs "你 你 /hi/") =
      .ok (some ⟨cs "你", cs "你", cs "你", cs "你", [cs "hi"], false⟩) ∧
    parse_cc_cedict_line okO okO (cs "你 您 [x] /hello/") =
      .ok (some ⟨cs "你", cs "您", cs "你", cs "你", [cs "hello"], false⟩) ∧
    (Entry.pinyin ⟨cs "你", cs "你", cs "你", cs "你", [cs "hi"], false⟩ =
        Entry.pinyin ⟨cs "你", cs "您", cs "你", cs "你", [cs "hello"], false⟩ ∧
      Entry.zhuyin ⟨cs "你", cs "你", cs "你", cs "你", [cs "hi"], false⟩ =
        Entry.zhuyin ⟨cs "你", cs "您", cs "你", cs "你", [cs "hello"], false⟩) :=
  ⟨rfl, rfl,
   c7_pronunciation_noninterference.1 okO okO (cs "你 你 /hi/") (cs "你 您 [x] /hello/")
     ⟨cs "你", cs "你", cs "你", cs "你", [cs "hi"], false⟩
     ⟨cs "你", cs "您", cs "你", cs "你", [cs "hello"], false⟩ rfl rfl rfl⟩

/-- C7 counterexample: two lines with the same first *whitespace*-delimited
token (`"a"`): a tab inside `"a\tb"` is whitespace but not the space the
code splits on, so the two entries' `traditional` differ and their pinyin
(derived from `traditional`) differ. -/
theorem c7_counterexample :
    (wsTokens (cs "a\tb c d")).head? = (wsTokens (cs "a b c")).head? ∧
    parse_cc_cedict_line okO okO (cs "a\tb c d") =
      .ok (some ⟨cs "a\tb", cs "c", cs "a \t b", cs "a \t b", [], false⟩) ∧
    parse_cc_cedict_line okO okO (cs "a b c") =
      .ok (some ⟨cs "a", cs "b", cs "a", cs "a", [], false⟩) ∧
    Entry.pinyin ⟨cs "a\tb", cs "c", cs "a \t b", cs "a \t b", [], false⟩ ≠
      Entry.pinyin ⟨cs "a", cs "b", cs "a", cs "a", [], false⟩ :=
  ⟨by decide, rfl, rfl, by decide⟩

/-- C8: with a total oracle, a line whose remainder after the two headword
tokens is missing (fewer than three split parts) or whitespace-only yields
either SKIP or an entry with empty `meaning` — never an error. -/
theorem c8_absent_remainder (oP oZ : List Char → List (List Char)) (line : List Char)
    (h : (split2 (trimL line)).length < 3 ∨
      ∃ t s rest, split2 (trimL line) = [t, s, rest] ∧ trimL rest = []) :
    parse_cc_cedict_line (pureOracle oP) (pureOracle oZ) line = .ok none ∨
    ∃ e, parse_cc_cedict_line (pureOracle oP) (pureOracle oZ) line =
        .ok (some e) ∧ e.meaning = [] := by
  rcases h with h | ⟨t, s, rest, hs, hws⟩
  · exact Or.inl (parse_skip_short _ _ line h)
  · obtain ⟨r, hr⟩ := parse_pure_total oP oZ line
    cases r with
    | none => exact Or.inl hr
    | some e =>
      refine Or.inr ⟨e, hr, ?_⟩
      obtain ⟨-, -, rest', hsplit', -, -, hm, -⟩ :=
        parse_ok_some_spec (pureOracle oP) (pureOracle oZ) line e hr
      rw [hs] at hsplit'
      simp only [List.cons.injEq, and_true] at hsplit'
      obtain ⟨-, -, hrest⟩ := hsplit'
      subst hrest
      rw [hm]
      exact extractMeanings_of_all_space rest hws

/-- Witness for C8 at `parse("一 一")` (missing remainder). -/
theorem c8_absent_remainder_witness :
    ((split2 (trimL (cs "一 一"))).length < 3 ∨
      ∃ t s rest, split2 (trimL (cs "一 一")) = [t, s, rest] ∧ trimL rest = []) ∧
    (parse_cc_cedict_line (pureOracle echoReadings) (pureOracle echoReadings)
        (cs "一 一") = .ok none ∨
      ∃ e, parse_cc_cedict_line (pureOracle echoReadings) (pureOracle echoReadings)
          (cs "一 一") = .ok (some e) ∧ e.meaning = []) :=
  ⟨Or.inl (by decide),
   c8_absent_remainder echoReadings echoReadings (cs "一 一") (Or.inl (by decide))⟩

/-- C10: totality of the line parser.  With a total transliteration
oracle, `parse` returns on every input string — including unmatched or
malformed brackets and gloss sections without slash bracketing — and the
result is SKIP or a record with exactly the six fields `traditional`,
`simplified`, `pinyin`, `zhuyin`, `meaning`, `is_idiom`. -/
theorem c10_parser_totality (oP oZ : List Char → List (List Char)) (line : List Char) :
    ∃ r : Option Entry,
      parse_cc_cedict_line (pureOracle oP) (pureOracle oZ) line = .ok r ∧
      (r = none ∨ ∃ t s p z m b, r = some (Entry.mk t s p z m b)) := by
  obtain ⟨r, hr⟩ := parse_pure_total oP oZ line
  refine ⟨r, hr, ?_⟩
  cases r with
  | none => exact Or.inl rfl
  | some e =>
    exact Or.inr ⟨e.traditional, e.simplified, e.pinyin, e.zhuyin, e.meaning,
      e.is_idiom, by cases e; rfl⟩

/-! ### JSON output model (claim C9) -/

/-- The JSON value fragment handled by `save_to_json`: strings, booleans,
arrays, and objects with ordered keys, as `json.dump` receives them. -/
inductive Json where
  | jstr : List Char → Json
  | jbool : Bool → Json
  | jarr : List Json → Json
  | jobj : List (List Char × Json) → Json

/-- The dict built for one entry (main.py lines 123–130), as the JSON
object `json.dump` serializes. -/
def entry_to_json (e : Entry) : Json :=
  .jobj [(cs "traditional", .jstr e.traditional),
         (cs "simplified", .jstr e.simplified),
         (cs "pinyin", .jstr e.pinyin),
         (cs "zhuyin", .jstr e.zhuyin),
         (cs "meaning", .jarr (e.meaning.map .jstr)),
         (cs "is_idiom", .jbool e.is_idiom)]

/-- `save_to_json` (main.py lines 165–179) restricted to its core: the
JSON value written for the entry list (a JSON array of entry objects; the
file write and text formatting are I/O plumbing). -/
def save_to_json (entries : List Entry) : Json :=
  .jarr (entries.map entry_to_json)

/-- Modelled from the spec: re-parsing the JSON-serialized form (§8,
idempotence).  No decoder exists in `main.py` — reading the output back is
done by `json.loads` downstream — so decoding a meaning array is modelled
as reading back a JSON array of strings. -/
def json_to_meaning : List Json → Option (List (List Char))
  | [] => some []
  | .jstr m :: rest => (json_to_meaning rest).map (fun ms => m :: ms)
  | _ => none

/-- Modelled from the spec: re-parsing one serialized entry object — the
inverse reading of the six keys `traditional, simplified, pinyin, zhuyin,
meaning, is_idiom` named by §6 "Output format". -/
def json_to_entry : Json → Option Entry
  | .jobj [(k1, .jstr t), (k2, .jstr s), (k3, .jstr p), (k4, .jstr z),
           (k5, .jarr ms), (k6, .jbool b)] =>
    if k1 = cs "traditional" ∧ k2 = cs "simplified" ∧ k3 = cs "pinyin" ∧
        k4 = cs "zhuyin" ∧ k5 = cs "meaning" ∧ k6 = cs "is_idiom" then
      (json_to_meaning ms).map (fun m => ⟨t, s, p, z, m, b⟩)
    else none
  | _ => none

/-- Modelled from the spec: re-parsing the serialized entry list. -/
def json_to_entry_list : List Json → Option (List Entry)
  | [] => some []
  | j :: js =>
    match json_to_entry j with
    | none => none
    | some e => (json_to_entry_list js).map (fun es => e :: es)

/-- Modelled from the spec: re-parsing the whole JSON output value. -/
def json_to_entries : Json → Option (List Entry)
  | .jarr js => json_to_entry_list js
  | _ => none

/-- A meaning list decodes back from its encoding. -/
theorem json_to_meaning_roundtrip (ms : List (List Char)) :
    json_to_meaning (ms.map Json.jstr) = some ms := by
  induction ms with
  | nil => rfl
  | cons m rest ih => simp [json_to_meaning, ih]

/-- One entry decodes back from its encoding. -/
theorem json_to_entry_roundtrip (e : Entry) :
    json_to_entry (entry_to_json e) = some e := by
  cases e with
  | mk t s p z m b =>
    simp [entry_to_json, json_to_entry, json_to_meaning_roundtrip]

/-- C9: serialization round-trip.  Re-parsing the JSON-serialized form of
any entry list yields a structurally equal list: every field of every
entry is preserved, in the same order. -/
theorem c9_json_roundtrip (entries : List Entry) :
    json_to_entries (save_to_json entries) = some entries := by
  simp only [save_to_json, json_to_entries]
  induction entries with
  | nil => rfl
  | cons e es ih =>
    simp [json_to_entry_list, json_to_entry_roundtrip, ih]

end CCCedict
